import Mathlib

/-!
# Verification of the SerialCOM_Tool protocol and register-model core

Shallow embedding of the protocol engine of the SerialCOM_Tool repository:

* `src/protocol.py` — custom checksummed packet codec (`Packet.to_bytes`,
  `Packet.from_bytes`, `fletcher16`), `PacketBuilder`, `PacketParser`,
  `RegisterMap`;
* `src/modbus_tcp_protocol.py` — Modbus TCP codec (`ModbusTCPFrame`,
  `ModbusTCPBuilder`) and `ModbusRegisterMap`;
* `src/device_tab.py` — the slave-side buffer reassembly loop
  (`process_buffer`) and request handling (`handle_request`,
  `process_request`);
* `src/host_tab.py` / `src/modbus_tcp_master_tab.py` — pending-request
  correlation (`handle_response`, `check_timeout`) and the Modbus
  receive loop (`receive_worker`).

Bytes are modelled as `Nat` (a real byte is `< 256`); Python byte strings
are `List Nat`; functions that can return Python `None` return `Option`;
code whose only effect is logging/GUI display is omitted, state mutation
is explicit state passing.
-/

/-! ## Fletcher-16 checksum (`fletcher16`, src/protocol.py) -/

/-- The loop body state of `fletcher16`: the running `(sum1, sum2)` pair.
Mirrors `sum1 = (sum1 + b) & 0xFF; sum2 = (sum2 + sum1) & 0xFF` per byte. -/
def fletcher16Aux : Nat × Nat → List Nat → Nat × Nat
  | s, [] => s
  | (s1, s2), b :: rest =>
      fletcher16Aux ((s1 + b) % 256, (s2 + (s1 + b) % 256) % 256) rest

/-- The `fletcher16(data)` from src/protocol.py: two running sums wrapped at
255, combined as `(sum2 << 8) | sum1`. -/
def fletcher16 (data : List Nat) : Nat :=
  let s := fletcher16Aux (0, 0) data
  (s.2 <<< 8) ||| s.1

/-! ## Custom packet codec (`Packet`, src/protocol.py) -/

/-- The `Packet` dataclass of src/protocol.py: `device_address`,
`message_id`, `function_code`, payload `data`, and the optional
`checksum` field (set on decode, `None` on a freshly built packet). -/
structure Packet where
  device_address : Nat
  message_id : Nat
  function_code : Nat
  data : List Nat
  checksum : Option Nat := none
deriving DecidableEq, Repr

/-- The bytes of `Packet.to_bytes` before the checksum is appended:
`[0x7E][addr][msg_id][len(data)+1][func][data...]`. -/
def Packet.headerBytes (p : Packet) : List Nat :=
  0x7E :: p.device_address :: p.message_id :: (p.data.length + 1)
    :: p.function_code :: p.data

/-- The `Packet.to_bytes` from src/protocol.py: header and payload followed by
the Fletcher-16 checksum of everything so far, high byte then low byte. -/
def Packet.toBytes (p : Packet) : List Nat :=
  let checksum := fletcher16 p.headerBytes
  p.headerBytes ++ [(checksum >>> 8) &&& 0xFF, checksum &&& 0xFF]

/-- One `bytearray.append` step: appending a value outside `0..255`
raises `ValueError` in Python, modelled as `none`. -/
def appendByte (acc : Option (List Nat)) (b : Nat) : Option (List Nat) :=
  acc.bind fun l => if b < 256 then some (l ++ [b]) else none

/-- The `Packet.to_bytes` with the `bytearray.append` range checks made
explicit: Python raises (here: `none`) when a header field or the length
byte `len(data)+1` does not fit in one byte.  When every check passes the
result is exactly `Packet.toBytes`. -/
def Packet.toBytesChecked (p : Packet) : Option (List Nat) :=
  let header := (((((some []).bind fun l => if (0x7E : Nat) < 256 then some (l ++ [0x7E]) else none)
    |>.bind fun l => if p.device_address < 256 then some (l ++ [p.device_address]) else none)
    |>.bind fun l => if p.message_id < 256 then some (l ++ [p.message_id]) else none)
    |>.bind fun l => if p.data.length + 1 < 256 then some (l ++ [p.data.length + 1]) else none)
    |>.bind fun l => if p.function_code < 256 then some (l ++ [p.function_code]) else none
  let withData := p.data.foldl appendByte header
  withData.bind fun l =>
    let checksum := fletcher16 l
    appendByte (appendByte (some l) ((checksum >>> 8) &&& 0xFF)) (checksum &&& 0xFF)

/-- The received checksum word read by `Packet.from_bytes`:
`(data[4+length] << 8) | data[5+length]` with `length = data[3]`. -/
def receivedChecksum (data : List Nat) : Nat :=
  (data.getD (4 + data.getD 3 0) 0) <<< 8 ||| data.getD (5 + data.getD 3 0) 0

/-- The checksum recomputed by `Packet.from_bytes`:
`fletcher16(data[:4+length])` with `length = data[3]`. -/
def calculatedChecksum (data : List Nat) : Nat :=
  fletcher16 (data.take (4 + data.getD 3 0))

/-- The `Packet.from_bytes` from src/protocol.py.  Every index read in the
Python code happens after a length guard that makes it in bounds, so the
`getD` defaults are never used on a reached path. -/
def Packet.fromBytes (data : List Nat) : Option Packet :=
  if data.length < 7 then none
  else if data.getD 0 0 ≠ 0x7E then none
  else
    let length := data.getD 3 0
    if data.length < 6 + length then none
    else if receivedChecksum data ≠ calculatedChecksum data then none
    else some
      { device_address := data.getD 1 0
        message_id := data.getD 2 0
        function_code := data.getD 4 0
        data := (data.take (4 + length)).drop 5
        checksum := some (receivedChecksum data) }

/-- A `Packet` that Python's `to_bytes` can actually serialize: every
header byte fits in one byte, the payload is at most 254 bytes (so the
length byte `len(data)+1` fits), and the payload is made of bytes. -/
def Packet.Valid (p : Packet) : Prop :=
  p.device_address < 256 ∧ p.message_id < 256 ∧ p.function_code < 256 ∧
    p.data.length ≤ 254 ∧ ∀ b ∈ p.data, b < 256

instance (p : Packet) : Decidable p.Valid := by
  unfold Packet.Valid; infer_instance

/-! ## Big-endian 16-bit words (`encode_word` / `struct.pack('>H', ...)`) -/

/-- A 16-bit value as two big-endian bytes.  `value.to_bytes(2, 'big')`
and `struct.pack('>H', value)` raise for `value ≥ 2^16`; every call site
in the source passes a value below `2^16`. -/
def encodeWord (value : Nat) : List Nat :=
  [value / 256, value % 256]

/-- The `decode_word(data, offset)` from src/protocol.py:
`int.from_bytes(data[offset:offset+2], 'big')`.  Every call site reads
inside a length guard, so the `getD` defaults are never used. -/
def decodeWord (data : List Nat) (offset : Nat) : Nat :=
  (data.getD offset 0) * 256 + data.getD (offset + 1) 0

/-! ## Modbus TCP codec (`ModbusTCPFrame`, src/modbus_tcp_protocol.py) -/

/-- The `ModbusTCPFrame` dataclass: MBAP header fields plus function code
and PDU data. -/
structure ModbusTCPFrame where
  transaction_id : Nat
  protocol_id : Nat
  length : Nat
  unit_id : Nat
  function_code : Nat
  data : List Nat
deriving DecidableEq, Repr

/-- The `ModbusTCPFrame.to_bytes`: `struct.pack('>HHHB', ...)` MBAP header
followed by the function code byte and the PDU data. -/
def ModbusTCPFrame.toBytes (f : ModbusTCPFrame) : List Nat :=
  encodeWord f.transaction_id ++ encodeWord f.protocol_id ++ encodeWord f.length ++
    [f.unit_id] ++ [f.function_code] ++ f.data

/-- The `ModbusTCPFrame.from_bytes`: reject fewer than 8 bytes, a nonzero
protocol id, or a buffer shorter than `6 + length`; otherwise slice the
PDU out of `data[8:6+length]`.  (The `struct.unpack` of `data[:7]` cannot
fail once `len(data) ≥ 8`.) -/
def ModbusTCPFrame.fromBytes (data : List Nat) : Option ModbusTCPFrame :=
  if data.length < 8 then none
  else
    let protocol_id := (data.getD 2 0) * 256 + data.getD 3 0
    let length := (data.getD 4 0) * 256 + data.getD 5 0
    if protocol_id ≠ 0 then none
    else if data.length < 6 + length then none
    else some
      { transaction_id := (data.getD 0 0) * 256 + data.getD 1 0
        protocol_id := protocol_id
        length := length
        unit_id := data.getD 6 0
        function_code := data.getD 7 0
        data := (data.take (6 + length)).drop 8 }

/-- A `ModbusTCPFrame` that `struct.pack` serializes faithfully: word
fields below `2^16`, byte fields below `2^8`, protocol id zero, and the
MBAP length consistent with the PDU (`unit_id + function_code + data`). -/
def ModbusTCPFrame.Valid (f : ModbusTCPFrame) : Prop :=
  f.transaction_id < 65536 ∧ f.protocol_id = 0 ∧ f.length = f.data.length + 2 ∧
    f.data.length + 2 < 65536 ∧ f.unit_id < 256 ∧ f.function_code < 256 ∧
    ∀ b ∈ f.data, b < 256

instance (f : ModbusTCPFrame) : Decidable f.Valid := by
  unfold ModbusTCPFrame.Valid; infer_instance

/-! ## Modbus frame builders (`ModbusTCPBuilder`, src/modbus_tcp_protocol.py) -/

/-- The `ModbusTCPBuilder.read_holding_registers_request`. -/
def ModbusTCPBuilder.readHoldingRegistersRequest
    (transaction_id unit_id start_address count : Nat) : ModbusTCPFrame :=
  let data := encodeWord start_address ++ encodeWord count
  { transaction_id := transaction_id
    protocol_id := 0
    length := data.length + 2
    unit_id := unit_id
    function_code := 0x03
    data := data }

/-- The `ModbusTCPBuilder.read_holding_registers_response`. -/
def ModbusTCPBuilder.readHoldingRegistersResponse
    (transaction_id unit_id : Nat) (values : List Nat) : ModbusTCPFrame :=
  let data := values.length * 2 :: (values.map encodeWord).flatten
  { transaction_id := transaction_id
    protocol_id := 0
    length := data.length + 2
    unit_id := unit_id
    function_code := 0x03
    data := data }

/-- The `ModbusTCPBuilder.write_multiple_registers_request`. -/
def ModbusTCPBuilder.writeMultipleRegistersRequest
    (transaction_id unit_id start_address : Nat) (values : List Nat) : ModbusTCPFrame :=
  let data := encodeWord start_address ++ encodeWord values.length ++
    [values.length * 2] ++ (values.map encodeWord).flatten
  { transaction_id := transaction_id
    protocol_id := 0
    length := data.length + 2
    unit_id := unit_id
    function_code := 0x10
    data := data }

/-- The `ModbusTCPBuilder.write_multiple_registers_response`. -/
def ModbusTCPBuilder.writeMultipleRegistersResponse
    (transaction_id unit_id start_address count : Nat) : ModbusTCPFrame :=
  let data := encodeWord start_address ++ encodeWord count
  { transaction_id := transaction_id
    protocol_id := 0
    length := data.length + 2
    unit_id := unit_id
    function_code := 0x10
    data := data }

/-- The `ModbusTCPBuilder.exception_response`. -/
def ModbusTCPBuilder.exceptionResponse
    (transaction_id unit_id function_code exception_code : Nat) : ModbusTCPFrame :=
  { transaction_id := transaction_id
    protocol_id := 0
    length := 1 + 2
    unit_id := unit_id
    function_code := 0x80 ||| function_code
    data := [exception_code] }

/-! ## Register maps (src/protocol.py `RegisterMap`,
src/modbus_tcp_protocol.py `ModbusRegisterMap`) -/

/-- The `RegisterMap` from src/protocol.py: a `size` plus the register list
(initialised to `[0] * size`).  Addresses and values are naturals, so the
Python `0 <= address` halves of the guards are vacuous. -/
structure RegisterMap where
  size : Nat
  registers : List Nat
deriving DecidableEq, Repr

/-- The `RegisterMap(size)` constructor. -/
def RegisterMap.init (size : Nat) : RegisterMap :=
  ⟨size, List.replicate size 0⟩

/-- The `RegisterMap.read`. -/
def RegisterMap.read (m : RegisterMap) (address : Nat) : Option Nat :=
  if address < m.size then some (m.registers.getD address 0) else none

/-- The `RegisterMap.write`: returns the (possibly updated) map and the
Python boolean result. -/
def RegisterMap.write (m : RegisterMap) (address value : Nat) : RegisterMap × Bool :=
  if address < m.size ∧ value ≤ 0xFFFF then
    (⟨m.size, m.registers.set address value⟩, true)
  else (m, false)

/-- The `RegisterMap.read_multiple`: guard `0 <= address < size` and
`address + count <= size`, then the slice `registers[address:address+count]`. -/
def RegisterMap.read_multiple (m : RegisterMap) (address count : Nat) : Option (List Nat) :=
  if address < m.size ∧ address + count ≤ m.size then
    some ((m.registers.drop address).take count)
  else none

/-- The write loop of `write_multiple`: `registers[address+i] = values[i]`
for each `i`. -/
def setSeq (regs : List Nat) (address : Nat) : List Nat → List Nat
  | [] => regs
  | v :: vs => setSeq (regs.set address v) (address + 1) vs

/-- The `RegisterMap.write_multiple`: address-range guard, then a validation
pass over all values, then (only if everything is valid) the write loop. -/
def RegisterMap.write_multiple (m : RegisterMap) (address : Nat) (values : List Nat) :
    RegisterMap × Bool :=
  if address < m.size ∧ address + values.length ≤ m.size then
    if values.all (· ≤ 0xFFFF) then
      (⟨m.size, setSeq m.registers address values⟩, true)
    else (m, false)
  else (m, false)

/-- The `ModbusRegisterMap` from src/modbus_tcp_protocol.py. -/
structure ModbusRegisterMap where
  size : Nat
  registers : List Nat
deriving DecidableEq, Repr

/-- The `ModbusRegisterMap(size)` constructor (default size 1000). -/
def ModbusRegisterMap.init (size : Nat) : ModbusRegisterMap :=
  ⟨size, List.replicate size 0⟩

/-- The `ModbusRegisterMap.read_registers`: address guard, then the in-layer
Modbus count cap `1 ≤ count ≤ 125`, then the range guard. -/
def ModbusRegisterMap.read_registers (m : ModbusRegisterMap) (start_address count : Nat) :
    Option (List Nat) :=
  if m.size ≤ start_address then none
  else if count < 1 ∨ 125 < count then none
  else if m.size < start_address + count then none
  else some ((m.registers.drop start_address).take count)

/-! ## Custom-protocol packet builders (`PacketBuilder`, src/protocol.py) -/

/-- The `PacketBuilder.read_single_response`. -/
def PacketBuilder.readSingleResponse (device_addr msg_id reg_addr reg_value : Nat) : Packet :=
  ⟨device_addr, msg_id, 0x41, encodeWord reg_addr ++ encodeWord reg_value, none⟩

/-- The `PacketBuilder.write_single_response`. -/
def PacketBuilder.writeSingleResponse (device_addr msg_id reg_addr reg_value : Nat) : Packet :=
  ⟨device_addr, msg_id, 0x42, encodeWord reg_addr ++ encodeWord reg_value, none⟩

/-- The `PacketBuilder.read_multiple_response`. -/
def PacketBuilder.readMultipleResponse (device_addr msg_id reg_addr : Nat)
    (values : List Nat) : Packet :=
  ⟨device_addr, msg_id, 0x43,
    encodeWord reg_addr ++ values.length :: (values.map encodeWord).flatten, none⟩

/-- The `PacketBuilder.write_multiple_response`. -/
def PacketBuilder.writeMultipleResponse (device_addr msg_id reg_addr count : Nat) : Packet :=
  ⟨device_addr, msg_id, 0x44, encodeWord reg_addr ++ [count], none⟩

/-- The `PacketBuilder.error_response`: function code `0x80 | original`, one
error-code byte of payload. -/
def PacketBuilder.errorResponse (device_addr msg_id function_code error_code : Nat) : Packet :=
  ⟨device_addr, msg_id, 0x80 ||| function_code, [error_code], none⟩

/-! ## Request parsing (`PacketParser.parse_request`, src/protocol.py) -/

/-- The structured result of `PacketParser.parse_request` (the dict keys
set by each branch). -/
inductive DeviceRequest where
  | readSingle (reg_addr : Nat)
  | writeSingle (reg_addr reg_value : Nat)
  | readMultiple (reg_addr count : Nat)
  | writeMultiple (reg_addr count : Nat) (values : List Nat)
deriving DecidableEq, Repr

/-- The values loop of the `WRITE_MULTIPLE` branch: for each
`i < count`, append `decode_word(data, 3 + 2*i)` only when
`offset + 1 < len(data)`. -/
def parseWriteValues (data : List Nat) (count : Nat) : List Nat :=
  (List.range count).filterMap fun i =>
    if 3 + 2 * i + 1 < data.length then some (decodeWord data (3 + 2 * i)) else none

/-- The `PacketParser.parse_request`: dispatch on the function code with the
per-branch minimum payload lengths of the source. -/
def parseRequest (p : Packet) : Option DeviceRequest :=
  if p.function_code = 0x01 then
    if 2 ≤ p.data.length then some (.readSingle (decodeWord p.data 0)) else none
  else if p.function_code = 0x02 then
    if 4 ≤ p.data.length then
      some (.writeSingle (decodeWord p.data 0) (decodeWord p.data 2))
    else none
  else if p.function_code = 0x03 then
    if 3 ≤ p.data.length then
      some (.readMultiple (decodeWord p.data 0) (p.data.getD 2 0))
    else none
  else if p.function_code = 0x04 then
    if 3 ≤ p.data.length then
      some (.writeMultiple (decodeWord p.data 0) (p.data.getD 2 0)
        (parseWriteValues p.data (p.data.getD 2 0)))
    else none
  else none

/-! ## Slave request handling (`DeviceTab`, src/device_tab.py) -/

/-- The device tab's error-simulation selector (`self.error_type`). -/
inductive ErrorSimType where
  | noSim | invalidFunction | invalidAddress | invalidValue | internalError
deriving DecidableEq, Repr

/-- The `error_map` lookup in `process_request` (default
`INTERNAL_ERROR`). -/
def errorSimCode : ErrorSimType → Nat
  | .invalidFunction => 0x01
  | .invalidAddress => 0x02
  | .invalidValue => 0x03
  | _ => 0xFF

/-- The `DeviceTab.process_request`: error simulation first, then dispatch on
the function code to the matching `RegisterMap` operation, producing a
success response or an `INVALID_ADDRESS` error response.  (`parsed` is
the successful `parse_request` result, so its constructor matches the
packet's function code.)  Returns the updated register map and the
response packet. -/
def processRequest (ownAddr : Nat) (simulateErrors : Bool) (errorType : ErrorSimType)
    (regs : RegisterMap) (p : Packet) (parsed : DeviceRequest) : RegisterMap × Packet :=
  if simulateErrors ∧ errorType ≠ .noSim then
    (regs, PacketBuilder.errorResponse ownAddr p.message_id p.function_code
      (errorSimCode errorType))
  else
    match parsed with
    | .readSingle addr =>
      match regs.read addr with
      | some value => (regs, PacketBuilder.readSingleResponse ownAddr p.message_id addr value)
      | none => (regs, PacketBuilder.errorResponse ownAddr p.message_id p.function_code 0x02)
    | .writeSingle addr value =>
      let r := regs.write addr value
      if r.2 then (r.1, PacketBuilder.writeSingleResponse ownAddr p.message_id addr value)
      else (r.1, PacketBuilder.errorResponse ownAddr p.message_id p.function_code 0x02)
    | .readMultiple addr count =>
      match regs.read_multiple addr count with
      | some values =>
        (regs, PacketBuilder.readMultipleResponse ownAddr p.message_id addr values)
      | none => (regs, PacketBuilder.errorResponse ownAddr p.message_id p.function_code 0x02)
    | .writeMultiple addr _ values =>
      let r := regs.write_multiple addr values
      if r.2 then
        (r.1, PacketBuilder.writeMultipleResponse ownAddr p.message_id addr values.length)
      else (r.1, PacketBuilder.errorResponse ownAddr p.message_id p.function_code 0x02)

/-- The `DeviceTab.handle_request`: parse; if the address is neither the
configured own address nor 0 (broadcast), only log — no register
operation and no response; otherwise process, answering only non-broadcast
requests.  Returns the updated register map and the optional response. -/
def handleRequest (ownAddr : Nat) (simulateErrors : Bool) (errorType : ErrorSimType)
    (regs : RegisterMap) (p : Packet) : RegisterMap × Option Packet :=
  match parseRequest p with
  | none => (regs, none)
  | some parsed =>
    if p.device_address = ownAddr ∨ p.device_address = 0 then
      if p.device_address ≠ 0 then
        let r := processRequest ownAddr simulateErrors errorType regs p parsed
        (r.1, some r.2)
      else
        let r := processRequest ownAddr simulateErrors errorType regs p parsed
        (r.1, none)
    else (regs, none)

/-! ## Stream reassembly (`DeviceTab.process_buffer`, src/device_tab.py;
the identical loop is `HostTab.process_response_buffer`) -/

/-- The `bytearray.find(0x7E)`: index of the first start flag, `none` when
absent (Python returns `-1`). -/
def find7E : List Nat → Option Nat
  | [] => none
  | b :: rest => if b = 0x7E then some 0 else (find7E rest).map (· + 1)

/-- The `process_buffer` from src/device_tab.py::process_buffer: repeatedly
drop bytes before the first `0x7E`; stop (keeping the buffer) while fewer
than 6 bytes are buffered or the buffer is shorter than the full frame
length `6 + buffer[3]`; otherwise slice out exactly one frame, decode it
with `Packet.from_bytes` (discarding the bytes either way) and continue.
Returns the final buffer contents and the decoded packets in order (the
source passes each to `handle_request`).  A buffer with no `0x7E` at all
is cleared. -/
def processBuffer (buf : List Nat) : List Nat × List Packet :=
  match find7E buf with
  | none => ([], [])
  | some i =>
    let buf' := buf.drop i
    if h6 : buf'.length < 6 then (buf', [])
    else
      let total := 6 + buf'.getD 3 0
      if hT : buf'.length < total then (buf', [])
      else
        let out := processBuffer (buf'.drop total)
        match Packet.fromBytes (buf'.take total) with
        | some p => (out.1, p :: out.2)
        | none => out
termination_by buf.length
decreasing_by
  simp only [List.length_drop, buf', total] at *
  omega

/-- The body of one `process_buffer` iteration after the buffer has been
aligned on a start flag; `processBuffer` unfolds to this once a `0x7E`
is found. -/
def afterStart (b : List Nat) : List Nat × List Packet :=
  if b.length < 6 then (b, [])
  else
    let total := 6 + b.getD 3 0
    if b.length < total then (b, [])
    else
      let out := processBuffer (b.drop total)
      match Packet.fromBytes (b.take total) with
      | some p => (out.1, p :: out.2)
      | none => out

/-- The `DeviceTab.handle_raw_data`: extend the buffer with the received
chunk, then run `process_buffer`. -/
def feedChunk (buf chunk : List Nat) : List Nat × List Packet :=
  processBuffer (buf ++ chunk)

/-- One `handle_raw_data` call in the chunk fold: run `feedChunk` on the
current buffer and append the newly decoded packets. -/
def feedStep (acc : List Nat × List Packet) (c : List Nat) : List Nat × List Packet :=
  let r := feedChunk acc.1 c
  (r.1, acc.2 ++ r.2)

/-- Feeding a sequence of chunks one `handle_raw_data` call at a time,
starting from an empty buffer, collecting all decoded packets. -/
def feedChunks (chunks : List (List Nat)) : List Nat × List Packet :=
  chunks.foldl feedStep ([], [])

/-! ## Modbus inbound path (`receive_worker`,
src/modbus_tcp_master_tab.py): each `recv` chunk is handed to
`ModbusTCPFrame.from_bytes` on its own, with no buffering between
chunks. -/

/-- The receive loop of `receive_worker`: per-`recv` parsing.  A chunk
that does not parse is dropped; there is no carry-over buffer. -/
def modbusPerRecvFrames (chunks : List (List Nat)) : List ModbusTCPFrame :=
  chunks.filterMap ModbusTCPFrame.fromBytes

/-! ## Request correlation (src/host_tab.py `handle_response` /
`check_timeout`; the Modbus master's pair in
src/modbus_tcp_master_tab.py has the same map discipline) -/

/-- A stored `pending_requests` entry (timestamp and operation
descriptor; their values are irrelevant to the correlation discipline). -/
structure PendingInfo where
  timestamp : Nat
  operation : Nat
deriving DecidableEq, Repr

/-- The `pending_requests` dict, keyed by message/transaction id. -/
def PendingMap : Type := Nat → Option PendingInfo

/-- The `dict.pop(id)`: the map without the entry for `id`. -/
def PendingMap.remove (m : PendingMap) (id : Nat) : PendingMap :=
  fun k => if k = id then none else m k

/-- What `handle_response` reports for a frame: matched against a pending
request (terminal), or unexpected (logged, ignored). -/
inductive ResponseOutcome where
  | matched (info : PendingInfo)
  | unmatched
deriving DecidableEq, Repr

/-- What `check_timeout` reports: a timeout for a still-pending request
(terminal), or nothing. -/
inductive TimeoutOutcome where
  | timedOut (info : PendingInfo)
  | noop
deriving DecidableEq, Repr

/-- The `handle_response` restricted to the pending-map discipline: if the id
is pending, pop it and report the match; otherwise log "unexpected"
and leave the map alone. -/
def handleResponse (m : PendingMap) (id : Nat) : PendingMap × ResponseOutcome :=
  match m id with
  | some info => (m.remove id, .matched info)
  | none => (m, .unmatched)

/-- The `check_timeout`: if the id is still pending, pop it and report the
timeout; otherwise do nothing. -/
def checkTimeout (m : PendingMap) (id : Nat) : PendingMap × TimeoutOutcome :=
  match m id with
  | some info => (m.remove id, .timedOut info)
  | none => (m, .noop)

/-! ## Single-bit corruption model (spec "checksum sensitivity") -/

/-- Flipping bit `k` (0 = least significant) of a byte. -/
def flipBitInByte (b k : Nat) : Nat := b ^^^ (1 <<< k)

/-- Flipping bit `i` of a byte string: bit `i % 8` of byte `i / 8`. -/
def flipBit (bs : List Nat) (i : Nat) : List Nat :=
  bs.set (i / 8) (flipBitInByte (bs.getD (i / 8) 0) (i % 8))

/-- A concrete pending-request map holding one in-flight request with
id 7 (spec scenario 5). -/
def pendingExample : PendingMap :=
  fun k => if k = 7 then some ⟨5, 1⟩ else none

/-! ## Arithmetic bridges for the bitwise operations -/

/-- The `(a << 8) | b` is plain positional arithmetic when `b` is a byte. -/
theorem shiftLeft_or_eq (a b : Nat) (hb : b < 256) :
    a <<< 8 ||| b = 256 * a + b := by
  rw [Nat.shiftLeft_eq, mul_comm]
  exact (Nat.mul_add_lt_is_or (show b < 2 ^ 8 by omega) a).symm

/-- The `x & 0xFF` is `x % 256`. -/
theorem and_255_eq (x : Nat) : x &&& 255 = x % 256 := by
  simpa using Nat.and_pow_two_sub_one_eq_mod x 8

/-- The `x >> 8` is `x / 256`. -/
theorem shiftRight_8_eq (x : Nat) : x >>> 8 = x / 256 := by
  rw [Nat.shiftRight_eq_div_pow]

/-! ## Fletcher-16 structure lemmas -/

theorem fletcher16Aux_fst (d : List Nat) :
    ∀ s1 s2, s1 < 256 → (fletcher16Aux (s1, s2) d).1 = (s1 + d.sum) % 256 := by
  induction d with
  | nil => intro s1 s2 h1; simp [fletcher16Aux, Nat.mod_eq_of_lt h1]
  | cons b rest ih =>
    intro s1 s2 h1
    rw [fletcher16Aux, ih _ _ (Nat.mod_lt _ (by omega)), List.sum_cons]
    omega

theorem fletcher16Aux_lt (d : List Nat) :
    ∀ s1 s2, s1 < 256 → s2 < 256 →
      (fletcher16Aux (s1, s2) d).1 < 256 ∧ (fletcher16Aux (s1, s2) d).2 < 256 := by
  induction d with
  | nil => intro s1 s2 h1 h2; exact ⟨h1, h2⟩
  | cons b rest ih =>
    intro s1 s2 h1 h2
    rw [fletcher16Aux]
    exact ih _ _ (Nat.mod_lt _ (by omega)) (Nat.mod_lt _ (by omega))

/-- The `fletcher16` in positional form: `256 * sum2 + sum1`. -/
theorem fletcher16_eq (d : List Nat) :
    fletcher16 d = 256 * (fletcher16Aux (0, 0) d).2 + (fletcher16Aux (0, 0) d).1 := by
  unfold fletcher16
  exact shiftLeft_or_eq _ _ (fletcher16Aux_lt d 0 0 (by omega) (by omega)).1

/-- The low byte of `fletcher16` is the byte sum mod 256. -/
theorem fletcher16_mod_256 (d : List Nat) : fletcher16 d % 256 = d.sum % 256 := by
  rw [fletcher16_eq]
  have h := fletcher16Aux_fst d 0 0 (by omega)
  omega

theorem fletcher16_lt (d : List Nat) : fletcher16 d < 65536 := by
  rw [fletcher16_eq]
  have h1 := fletcher16Aux_lt d 0 0 (by omega) (by omega)
  omega

/-! ## List helper lemmas -/

theorem getD_append_right_ (l1 l2 : List Nat) (i : Nat) (h : l1.length ≤ i) :
    (l1 ++ l2).getD i 0 = l2.getD (i - l1.length) 0 := by
  simp [List.getD, List.getElem?_append_right h]

theorem drop_append_of_length_le (l1 l2 : List Nat) (n : Nat) (h : l1.length ≤ n) :
    (l1 ++ l2).drop n = l2.drop (n - l1.length) := by
  rw [List.drop_append_eq_append_drop]
  simp [Nat.sub_eq_zero_of_le h, h]

theorem take_set_of_le (l : List Nat) (i n v : Nat) (h : n ≤ i) :
    (l.set i v).take n = l.take n := by
  apply List.ext_getElem
  · simp
  · intro j h1 h2
    simp only [List.getElem_take]
    rw [List.getElem_set_ne]
    simp at h1
    omega

theorem getD_take (l : List Nat) (n i : Nat) (h : i < n) :
    (l.take n).getD i 0 = l.getD i 0 := by
  simp [List.getD, List.getElem?_take, h]

theorem getD_drop (l : List Nat) (n i : Nat) :
    (l.drop n).getD i 0 = l.getD (n + i) 0 := by
  simp [List.getD, List.getElem?_drop]

/-- Replacing a list element shifts the sum by the difference. -/
theorem sum_set_add (l : List Nat) (j a : Nat) (h : j < l.length) :
    (l.set j a).sum + l.getD j 0 = l.sum + a := by
  induction l generalizing j with
  | nil => simp at h
  | cons b rest ih =>
    cases j with
    | zero => simp [List.getD]; omega
    | succ k =>
      simp only [List.set_cons_succ, List.sum_cons, List.getD_cons_succ]
      have := ih k (by simpa using h)
      omega

/-! ## C3 — decoder failure conditions -/

/-- C3: `Packet.from_bytes` returns `None` exactly when the input is
shorter than 7 bytes, does not start with `0x7E`, is shorter than the
declared `6 + length` bytes, or fails the Fletcher-16 comparison; on
every other input it returns a packet (the embedding is a total
function, mirroring that the Python code raises no exception). -/
theorem packet_fromBytes_none_iff (b : List Nat) :
    Packet.fromBytes b = none ↔
      (b.length < 7 ∨ b.getD 0 0 ≠ 0x7E ∨ b.length < 6 + b.getD 3 0 ∨
        receivedChecksum b ≠ calculatedChecksum b) := by
  unfold Packet.fromBytes
  split_ifs with h1 h2 h3 h4 <;> simp_all

/-! ## C9 — address filter -/

/-- C9: a request whose `device_address` is neither the slave's own
address nor 0 produces no response and leaves every register unchanged. -/
theorem handleRequest_wrong_address (ownAddr : Nat) (simulateErrors : Bool)
    (errorType : ErrorSimType) (regs : RegisterMap) (p : Packet)
    (hown : p.device_address ≠ ownAddr) (hbc : p.device_address ≠ 0) :
    handleRequest ownAddr simulateErrors errorType regs p = (regs, none) := by
  unfold handleRequest
  cases parseRequest p with
  | none => rfl
  | some parsed => simp [hown, hbc]

/-- C9 witness: a slave configured with address 1 receiving a
well-formed read-single request addressed to device 5. -/
theorem handleRequest_wrong_address_witness :
    (Packet.mk 5 0x10 0x01 [0x00, 0x03] none).device_address ≠ 1 ∧
    (Packet.mk 5 0x10 0x01 [0x00, 0x03] none).device_address ≠ 0 ∧
    handleRequest 1 false .noSim (RegisterMap.init 8)
      (Packet.mk 5 0x10 0x01 [0x00, 0x03] none) = (RegisterMap.init 8, none) :=
  ⟨by decide, by decide,
    handleRequest_wrong_address 1 false .noSim (RegisterMap.init 8)
      (Packet.mk 5 0x10 0x01 [0x00, 0x03] none) (by decide) (by decide)⟩

/-! ## C8 — correlation race -/

/-- C8: for a pending id, response handling and timeout firing commute
into "exactly one terminal report": whichever runs first removes the
entry and reports the terminal outcome (`matched` / `timedOut`); the
other invocation then finds the id absent and leaves the map untouched. -/
theorem correlation_race (m : PendingMap) (id : Nat) (info : PendingInfo)
    (h : m id = some info) :
    (handleResponse m id).2 = .matched info ∧
    (handleResponse m id).1 id = none ∧
    checkTimeout (handleResponse m id).1 id = ((handleResponse m id).1, .noop) ∧
    (checkTimeout m id).2 = .timedOut info ∧
    (checkTimeout m id).1 id = none ∧
    handleResponse (checkTimeout m id).1 id = ((checkTimeout m id).1, .unmatched) := by
  simp [handleResponse, checkTimeout, PendingMap.remove, h]

/-- C8 witness: request id 7 pending (spec scenario 5). -/
theorem correlation_race_witness :
    pendingExample 7 = some ⟨5, 1⟩ ∧
    ((handleResponse pendingExample 7).2 = .matched ⟨5, 1⟩ ∧
     (handleResponse pendingExample 7).1 7 = none ∧
     checkTimeout (handleResponse pendingExample 7).1 7 =
       ((handleResponse pendingExample 7).1, .noop) ∧
     (checkTimeout pendingExample 7).2 = .timedOut ⟨5, 1⟩ ∧
     (checkTimeout pendingExample 7).1 7 = none ∧
     handleResponse (checkTimeout pendingExample 7).1 7 =
       ((checkTimeout pendingExample 7).1, .unmatched)) :=
  ⟨rfl, correlation_race pendingExample 7 ⟨5, 1⟩ rfl⟩

/-! ## C2 — MBAP length field -/

/-- C2 counterexample: in the Read Holding Registers request of spec
scenario 3 the MBAP length is 6, not 1 + 4 = 5 as "1 (function code)
plus the PDU data bytes" would give — the field also counts the unit id. -/
theorem mbap_length_counterexample :
    (ModbusTCPBuilder.readHoldingRegistersRequest 1 1 0x1A 10).length ≠
      1 + (ModbusTCPBuilder.readHoldingRegistersRequest 1 1 0x1A 10).data.length := by
  decide

/-- C2 amended: every builder sets the MBAP length field to 2 (unit id +
function code) plus the number of PDU data bytes; the spec's own
concrete scenario 3 byte string confirms this. -/
theorem mbap_length_amended :
    (∀ tid uid addr cnt, (ModbusTCPBuilder.readHoldingRegistersRequest tid uid addr cnt).length =
      2 + (ModbusTCPBuilder.readHoldingRegistersRequest tid uid addr cnt).data.length) ∧
    (∀ tid uid values, (ModbusTCPBuilder.readHoldingRegistersResponse tid uid values).length =
      2 + (ModbusTCPBuilder.readHoldingRegistersResponse tid uid values).data.length) ∧
    (∀ tid uid addr values,
      (ModbusTCPBuilder.writeMultipleRegistersRequest tid uid addr values).length =
      2 + (ModbusTCPBuilder.writeMultipleRegistersRequest tid uid addr values).data.length) ∧
    (∀ tid uid addr cnt,
      (ModbusTCPBuilder.writeMultipleRegistersResponse tid uid addr cnt).length =
      2 + (ModbusTCPBuilder.writeMultipleRegistersResponse tid uid addr cnt).data.length) ∧
    (∀ tid uid fc ec, (ModbusTCPBuilder.exceptionResponse tid uid fc ec).length =
      2 + (ModbusTCPBuilder.exceptionResponse tid uid fc ec).data.length) ∧
    (ModbusTCPBuilder.readHoldingRegistersRequest 1 1 0x001A 10).toBytes =
      [0x00, 0x01, 0x00, 0x00, 0x00, 0x06, 0x01, 0x03, 0x00, 0x1A, 0x00, 0x0A] :=
  ⟨fun tid uid addr cnt => by
      simp [ModbusTCPBuilder.readHoldingRegistersRequest]; omega,
    fun tid uid values => by
      simp [ModbusTCPBuilder.readHoldingRegistersResponse]; omega,
    fun tid uid addr values => by
      simp [ModbusTCPBuilder.writeMultipleRegistersRequest]; omega,
    fun tid uid addr cnt => by
      simp [ModbusTCPBuilder.writeMultipleRegistersResponse]; omega,
    fun tid uid fc ec => by
      simp [ModbusTCPBuilder.exceptionResponse],
    by decide⟩

/-! ## C10 — encode-side range checks -/

theorem appendByte_foldl_none (d : List Nat) : d.foldl appendByte none = none := by
  induction d with
  | nil => rfl
  | cons b rest ih => simpa [appendByte] using ih

theorem appendByte_foldl_some (d : List Nat) :
    ∀ l, d.foldl appendByte (some l) =
      if d.all (· < 256) then some (l ++ d) else none := by
  induction d with
  | nil => intro l; simp
  | cons b rest ih =>
    intro l
    by_cases hb : b < 256
    · simp [appendByte, hb, ih (l ++ [b])]
    · simp [appendByte, hb, appendByte_foldl_none]

/-- The `Packet.to_bytes` with explicit `bytearray.append` checks: the encode
succeeds exactly when every header byte, the length byte and every
payload byte fits in `0..255`, and then agrees with `Packet.toBytes`. -/
theorem toBytesChecked_eq (p : Packet) :
    p.toBytesChecked =
      if p.device_address < 256 ∧ p.message_id < 256 ∧ p.data.length + 1 < 256 ∧
          p.function_code < 256 ∧ p.data.all (· < 256) then
        some p.toBytes
      else none := by
  unfold Packet.toBytesChecked
  by_cases h1 : p.device_address < 256 <;>
    by_cases h2 : p.message_id < 256 <;>
      by_cases h3 : p.data.length + 1 < 256 <;>
        by_cases h4 : p.function_code < 256 <;>
          simp [h1, h2, h3, h4, appendByte_foldl_none, appendByte_foldl_some]
  split_ifs with h5
  · simp [appendByte, Packet.toBytes, Packet.headerBytes, and_255_eq, Nat.mod_lt]
  · rfl

/-- C10: Python's `Packet.to_bytes` raises (modelled: the checked encoder
returns `none`) whenever the payload exceeds 254 bytes or a header field
exceeds one byte, and on every valid packet it returns exactly the
unchecked encoding. -/
theorem toBytes_panics_iff_invalid (p : Packet) :
    ((254 < p.data.length ∨ 256 ≤ p.device_address ∨ 256 ≤ p.message_id ∨
        256 ≤ p.function_code) → p.toBytesChecked = none) ∧
    (p.Valid → p.toBytesChecked = some p.toBytes) := by
  constructor
  · intro h
    rw [toBytesChecked_eq]
    split_ifs with hc
    · exfalso; omega
    · rfl
  · rintro ⟨v1, v2, v3, v4, v5⟩
    rw [toBytesChecked_eq]
    split_ifs with hc
    · rfl
    · exfalso
      apply hc
      refine ⟨v1, v2, by omega, v3, ?_⟩
      simpa [List.all_eq_true] using v5

/-- C10 witness: a packet with a 255-byte payload cannot be encoded; a
small in-range packet encodes checked = unchecked. -/
theorem toBytes_panics_witness :
    (254 < (Packet.mk 1 2 3 (List.replicate 255 0) none).data.length ∨
      256 ≤ (Packet.mk 1 2 3 (List.replicate 255 0) none).device_address ∨
      256 ≤ (Packet.mk 1 2 3 (List.replicate 255 0) none).message_id ∨
      256 ≤ (Packet.mk 1 2 3 (List.replicate 255 0) none).function_code) ∧
    (Packet.mk 1 2 3 (List.replicate 255 0) none).toBytesChecked = none ∧
    (Packet.mk 1 0x10 0x01 [0x12, 0x34] none).Valid ∧
    (Packet.mk 1 0x10 0x01 [0x12, 0x34] none).toBytesChecked =
      some (Packet.mk 1 0x10 0x01 [0x12, 0x34] none).toBytes :=
  ⟨Or.inl (by simp only [List.length_replicate]; omega),
    (toBytes_panics_iff_invalid _).1 (Or.inl (by simp only [List.length_replicate]; omega)),
    by decide, (toBytes_panics_iff_invalid _).2 (by decide)⟩

/-! ## C4 — multi-read bounds -/

/-- C4 counterexample: the claim's "no upper bound on count at this
layer" and "count = 0 included" both fail on the code.  The Modbus-role
register map rejects `count = 126` in-layer even though `0 + 126 ≤ 1000`,
and `RegisterMap.read_multiple(size, 0)` fails even though
`size + 0 ≤ size`. -/
theorem read_multiple_counterexample :
    ((0 : Nat) + 126 ≤ (ModbusRegisterMap.init 1000).size ∧
      (ModbusRegisterMap.init 1000).read_registers 0 126 = none) ∧
    ((8 : Nat) + 0 ≤ (RegisterMap.init 8).size ∧
      (RegisterMap.init 8).read_multiple 8 0 = none) :=
  ⟨⟨by norm_num [ModbusRegisterMap.init], rfl⟩, ⟨by norm_num [RegisterMap.init], rfl⟩⟩

/-- C4 amended: `RegisterMap.read_multiple(addr, count)` succeeds exactly
when `addr < size` and `addr + count ≤ size` (no cap on `count`, which may
exceed 255), returning the `count` stored values starting at `addr`;
`ModbusRegisterMap.read_registers` additionally enforces `1 ≤ count ≤ 125`
at this layer. -/
theorem read_multiple_characterization :
    (∀ (m : RegisterMap) (addr count : Nat), m.registers.length = m.size →
      ((m.read_multiple addr count).isSome ↔ addr < m.size ∧ addr + count ≤ m.size) ∧
      ∀ vs, m.read_multiple addr count = some vs →
        vs.length = count ∧ ∀ i, i < count → vs.getD i 0 = m.registers.getD (addr + i) 0) ∧
    (∀ (m : ModbusRegisterMap) (addr count : Nat),
      (m.read_registers addr count).isSome ↔
        addr < m.size ∧ 1 ≤ count ∧ count ≤ 125 ∧ addr + count ≤ m.size) := by
  constructor
  · intro m addr count hlen
    constructor
    · unfold RegisterMap.read_multiple
      split_ifs with h <;> simp [h]
    · intro vs hvs
      unfold RegisterMap.read_multiple at hvs
      split_ifs at hvs with h
      · cases hvs
        constructor
        · simp [List.length_take, List.length_drop]; omega
        · intro i hi
          rw [getD_take _ _ _ hi, getD_drop]
  · intro m addr count
    unfold ModbusRegisterMap.read_registers
    split_ifs with h1 h2 h3 <;> simp <;> omega

/-- C4 witness: reading 2 registers at address 1 of a 4-register map. -/
theorem read_multiple_witness :
    (RegisterMap.init 4).registers.length = (RegisterMap.init 4).size ∧
    (((RegisterMap.init 4).read_multiple 1 2).isSome ↔
      1 < (RegisterMap.init 4).size ∧ 1 + 2 ≤ (RegisterMap.init 4).size) :=
  ⟨by decide, (read_multiple_characterization.1 (RegisterMap.init 4) 1 2 (by decide)).1⟩

/-! ## C5 — all-or-nothing multi-write -/

theorem setSeq_length (vs : List Nat) :
    ∀ regs addr, (setSeq regs addr vs).length = regs.length := by
  induction vs with
  | nil => intro regs addr; rfl
  | cons v rest ih => intro regs addr; rw [setSeq, ih]; simp

theorem setSeq_getD_lt (vs : List Nat) :
    ∀ regs addr j, j < addr → (setSeq regs addr vs).getD j 0 = regs.getD j 0 := by
  induction vs with
  | nil => intro regs addr j _; rfl
  | cons v rest ih =>
    intro regs addr j hj
    rw [setSeq, ih _ _ _ (by omega)]
    simp [List.getD, List.getElem?_set_ne (by omega : addr ≠ j)]

theorem setSeq_getD_ge (vs : List Nat) :
    ∀ regs addr j, addr + vs.length ≤ j →
      (setSeq regs addr vs).getD j 0 = regs.getD j 0 := by
  induction vs with
  | nil => intro regs addr j _; rfl
  | cons v rest ih =>
    intro regs addr j hj
    simp only [List.length_cons] at hj
    rw [setSeq, ih _ _ _ (by omega)]
    simp [List.getD, List.getElem?_set_ne (by omega : addr ≠ j)]

theorem setSeq_getD_mem (vs : List Nat) :
    ∀ regs addr i, i < vs.length → addr + vs.length ≤ regs.length →
      (setSeq regs addr vs).getD (addr + i) 0 = vs.getD i 0 := by
  induction vs with
  | nil => intro regs addr i hi _; simp at hi
  | cons v rest ih =>
    intro regs addr i hi hlen
    simp only [List.length_cons] at hi hlen
    cases i with
    | zero =>
      rw [setSeq, setSeq_getD_lt rest _ _ _ (by omega)]
      simp [List.getD, List.getElem?_set_self (by omega : addr < regs.length)]
    | succ k =>
      rw [setSeq, show addr + (k + 1) = (addr + 1) + k by omega,
        ih _ _ _ (by omega) (by simp; omega)]
      simp [List.getD]

/-- C5: `write_multiple` is all-or-nothing.  Any out-of-bounds target
address or any oversized value makes it return `false` with the map
untouched; a `true` result updates exactly the registers
`addr .. addr+len-1` to the given values, leaving every other register
and the size unchanged.  `read(size)` and `write(size, v)` always fail
without mutation. -/
theorem write_multiple_all_or_nothing :
    (∀ (m : RegisterMap) (addr : Nat) (values : List Nat),
      ((∃ i, i < values.length ∧ m.size ≤ addr + i) ∨ (∃ v ∈ values, 0xFFFF < v)) →
      m.write_multiple addr values = (m, false)) ∧
    (∀ (m : RegisterMap) (addr : Nat) (values : List Nat),
      m.registers.length = m.size → (m.write_multiple addr values).2 = true →
      (m.write_multiple addr values).1.size = m.size ∧
      (∀ i, i < values.length →
        (m.write_multiple addr values).1.registers.getD (addr + i) 0 = values.getD i 0) ∧
      (∀ j, j < addr ∨ addr + values.length ≤ j →
        (m.write_multiple addr values).1.registers.getD j 0 = m.registers.getD j 0)) ∧
    (∀ (m : RegisterMap) (v : Nat), m.read m.size = none ∧ m.write m.size v = (m, false)) := by
  refine ⟨?_, ?_, ?_⟩
  · intro m addr values h
    unfold RegisterMap.write_multiple
    rcases h with ⟨i, hi, hoob⟩ | ⟨v, hv, hbig⟩
    · rw [if_neg (by omega)]
    · split_ifs with h1 h2
      · exfalso
        rw [List.all_eq_true] at h2
        have := h2 v hv
        simp at this
        omega
      · rfl
      · rfl
  · intro m addr values hlen hw
    unfold RegisterMap.write_multiple at hw ⊢
    split_ifs at hw with h1 h2
    · refine ⟨by simp [h1, h2], ?_, ?_⟩
      · intro i hi
        simp only [h1, h2, if_true]
        exact setSeq_getD_mem values m.registers addr i hi (by omega)
      · intro j hj
        simp only [h1, h2, if_true]
        rcases hj with hj | hj
        · exact setSeq_getD_lt values m.registers addr j hj
        · exact setSeq_getD_ge values m.registers addr j hj
  · intro m v
    constructor
    · simp [RegisterMap.read]
    · simp [RegisterMap.write]

/-- C5 witness: writing `[1, 2]` at address `size - 1 = 3` of a
4-register map fails and leaves the map unmodified; a 1-value write at
address 0 succeeds and updates exactly register 0. -/
theorem write_multiple_witness :
    (∃ i, i < 2 ∧ (RegisterMap.init 4).size ≤ 3 + i) ∧
    (RegisterMap.init 4).write_multiple 3 [1, 2] = (RegisterMap.init 4, false) ∧
    (RegisterMap.init 4).registers.length = (RegisterMap.init 4).size ∧
    ((RegisterMap.init 4).write_multiple 0 [9]).2 = true ∧
    ((RegisterMap.init 4).write_multiple 0 [9]).1.registers.getD 0 0 = 9 :=
  ⟨⟨1, by decide, by decide⟩,
    (write_multiple_all_or_nothing.1 (RegisterMap.init 4) 3 [1, 2]
      (Or.inl ⟨1, by decide, by decide⟩)),
    by decide, by decide,
    ((write_multiple_all_or_nothing.2.1 (RegisterMap.init 4) 0 [9] (by decide)
      (by decide)).2.1 0 (by decide))⟩

/-! ## C1 — round-trip -/

theorem headerBytes_length (p : Packet) : p.headerBytes.length = 5 + p.data.length := by
  simp [Packet.headerBytes]; omega

theorem toBytes_length (p : Packet) : p.toBytes.length = 7 + p.data.length := by
  simp [Packet.toBytes, headerBytes_length]; omega

/-- Reassembling the two checksum bytes of `to_bytes` gives back the
16-bit checksum. -/
theorem checksum_bytes_reassemble (c : Nat) (hc : c < 65536) :
    ((c >>> 8) &&& 0xFF) <<< 8 ||| (c &&& 0xFF) = c := by
  rw [show (0xFF : Nat) = 255 from rfl, and_255_eq, and_255_eq, shiftRight_8_eq,
    shiftLeft_or_eq _ _ (Nat.mod_lt _ (by omega))]
  omega

/-- Decoding an encoded packet: all fields survive, and the checksum
field comes back as the (re)computed Fletcher-16 of the frame. -/
theorem packet_roundtrip (p : Packet) (_hv : p.Valid) :
    Packet.fromBytes p.toBytes =
      some { p with checksum := some (fletcher16 p.headerBytes) } := by
  have hhblen : p.headerBytes.length = 5 + p.data.length := headerBytes_length p
  have hcl : fletcher16 p.headerBytes < 65536 := fletcher16_lt _
  have hlen : p.toBytes.length = 7 + p.data.length := toBytes_length p
  have htb : p.toBytes = p.headerBytes ++
      [(fletcher16 p.headerBytes >>> 8) &&& 0xFF, fletcher16 p.headerBytes &&& 0xFF] := rfl
  have hget0 : p.toBytes.getD 0 0 = 0x7E := by
    rw [htb, List.getD_append _ _ _ _ (by omega)]
    simp [Packet.headerBytes, List.getD]
  have hget1 : p.toBytes.getD 1 0 = p.device_address := by
    rw [htb, List.getD_append _ _ _ _ (by omega)]
    simp [Packet.headerBytes, List.getD]
  have hget2 : p.toBytes.getD 2 0 = p.message_id := by
    rw [htb, List.getD_append _ _ _ _ (by omega)]
    simp [Packet.headerBytes, List.getD]
  have hget3 : p.toBytes.getD 3 0 = p.data.length + 1 := by
    rw [htb, List.getD_append _ _ _ _ (by omega)]
    simp [Packet.headerBytes, List.getD]
  have hget4 : p.toBytes.getD 4 0 = p.function_code := by
    rw [htb, List.getD_append _ _ _ _ (by omega)]
    simp [Packet.headerBytes, List.getD]
  have htake : p.toBytes.take (4 + (p.data.length + 1)) = p.headerBytes := by
    rw [htb, List.take_append_of_le_length (by omega)]
    exact List.take_of_length_le (by omega)
  have hrecv : receivedChecksum p.toBytes = fletcher16 p.headerBytes := by
    unfold receivedChecksum
    rw [hget3, htb, getD_append_right_ _ _ _ (by omega), getD_append_right_ _ _ _ (by omega),
      show 4 + (p.data.length + 1) - p.headerBytes.length = 0 by omega,
      show 5 + (p.data.length + 1) - p.headerBytes.length = 1 by omega]
    exact checksum_bytes_reassemble _ hcl
  have hcalc : calculatedChecksum p.toBytes = fletcher16 p.headerBytes := by
    unfold calculatedChecksum
    rw [hget3, htake]
  have hdata : (p.toBytes.take (4 + (p.data.length + 1))).drop 5 = p.data := by
    rw [htake, Packet.headerBytes]
    rfl
  unfold Packet.fromBytes
  rw [if_neg (by omega), if_neg (by rw [hget0]; simp), hget3, if_neg (by omega),
    if_neg (by rw [hrecv, hcalc]; simp)]
  rw [hget1, hget2, hget4, hdata, hrecv]

/-- Decoding an encoded Modbus frame gives back the frame exactly. -/
theorem modbus_roundtrip (f : ModbusTCPFrame) (hv : f.Valid) :
    ModbusTCPFrame.fromBytes f.toBytes = some f := by
  obtain ⟨tid, pid, len, uid, fc, d⟩ := f
  obtain ⟨h1, h2, h3, _h4, h5, h6, _h7⟩ := hv
  simp only at h2 h3
  subst h2
  subst h3
  have hbytes : ModbusTCPFrame.toBytes ⟨tid, 0, d.length + 2, uid, fc, d⟩ =
      tid / 256 :: tid % 256 :: 0 :: 0 :: (d.length + 2) / 256 ::
        (d.length + 2) % 256 :: uid :: fc :: d := by
    simp [ModbusTCPFrame.toBytes, encodeWord]
  unfold ModbusTCPFrame.fromBytes
  rw [hbytes]
  simp only [List.getD_cons_succ, List.getD_cons_zero, List.length_cons]
  rw [show (0 : Nat) * 256 + 0 = 0 by omega,
    show (d.length + 2) / 256 * 256 + (d.length + 2) % 256 = d.length + 2 by omega,
    show tid / 256 * 256 + tid % 256 = tid by omega]
  rw [if_neg (by omega), if_neg (by simp), if_neg (by omega)]
  rw [show (6 : Nat) + (d.length + 2) = d.length + 8 by omega]
  rw [List.take_of_length_le (by simp)]
  simp

/-- C1 counterexample: a valid packet with `checksum = None` does not
round-trip on the nose — decoding fills the checksum field, so the
decoded dataclass differs from the original in that field. -/
theorem roundtrip_counterexample :
    (Packet.mk 1 0x10 0x01 [0x12, 0x34] none).Valid ∧
    Packet.fromBytes (Packet.mk 1 0x10 0x01 [0x12, 0x34] none).toBytes ≠
      some (Packet.mk 1 0x10 0x01 [0x12, 0x34] none) := by
  constructor
  · decide
  · decide

/-- C1 amended: for every valid packet, decode-of-encode returns the
packet with its checksum field replaced by the recomputed Fletcher-16
of the frame (so the dataclass equality `decode(encode(x)) == x` holds
exactly when `x.checksum` already was that value); for every valid
Modbus frame, decode-of-encode is the identity on all fields. -/
theorem roundtrip_amended :
    (∀ p : Packet, p.Valid →
      Packet.fromBytes p.toBytes =
        some { p with checksum := some (fletcher16 p.headerBytes) }) ∧
    (∀ f : ModbusTCPFrame, f.Valid → ModbusTCPFrame.fromBytes f.toBytes = some f) :=
  ⟨packet_roundtrip, modbus_roundtrip⟩

/-- C1 witness: the spec's scenario-1 packet and scenario-3 frame. -/
theorem roundtrip_witness :
    (Packet.mk 1 0x10 0x01 [0x12, 0x34] none).Valid ∧
    Packet.fromBytes (Packet.mk 1 0x10 0x01 [0x12, 0x34] none).toBytes =
      some { Packet.mk 1 0x10 0x01 [0x12, 0x34] none with
        checksum := some (fletcher16 (Packet.mk 1 0x10 0x01 [0x12, 0x34] none).headerBytes) } ∧
    (ModbusTCPFrame.mk 1 0 6 1 0x03 [0x00, 0x1A, 0x00, 0x0A]).Valid ∧
    ModbusTCPFrame.fromBytes (ModbusTCPFrame.mk 1 0 6 1 0x03 [0x00, 0x1A, 0x00, 0x0A]).toBytes =
      some (ModbusTCPFrame.mk 1 0 6 1 0x03 [0x00, 0x1A, 0x00, 0x0A]) :=
  ⟨by decide, roundtrip_amended.1 _ (by decide), by decide, roundtrip_amended.2 _ (by decide)⟩

/-! ## C6 — single-bit corruption -/

theorem flipBitInByte_ne (b k : Nat) : flipBitInByte b k ≠ b := by
  unfold flipBitInByte
  intro h
  have h2 : b ^^^ (b ^^^ (1 <<< k)) = b ^^^ b := by rw [h]
  have h3 : (1 : Nat) <<< k = 0 := by simpa [← Nat.xor_assoc] using h2
  have h4 : (0 : Nat) < 1 <<< k := by
    rw [Nat.shiftLeft_eq]
    positivity
  omega

theorem flipBitInByte_lt (b k : Nat) (hb : b < 256) (hk : k < 8) :
    flipBitInByte b k < 256 := by
  unfold flipBitInByte
  have h1 : (1 : Nat) <<< k < 2 ^ 8 := by
    rw [Nat.shiftLeft_eq, one_mul]
    exact Nat.pow_lt_pow_right (by omega) hk
  exact Nat.xor_lt_two_pow (by omega) h1

theorem getD_set_self_ (l : List Nat) (i v : Nat) (h : i < l.length) :
    (l.set i v).getD i 0 = v := by
  simp [List.getD, List.getElem?_set_self, h]

theorem getD_set_ne_ (l : List Nat) (i j v : Nat) (h : i ≠ j) :
    (l.set i v).getD j 0 = l.getD j 0 := by
  simp [List.getD, List.getElem?_set_ne h]

/-- Corrupting any single byte of a buffer by a bit flip changes its
Fletcher-16 checksum (the low sum is the byte sum mod 256). -/
theorem fletcher16_set_flip_ne (l : List Nat) (j k : Nat) (hj : j < l.length)
    (hb : l.getD j 0 < 256) (hk : k < 8) :
    fletcher16 (l.set j (flipBitInByte (l.getD j 0) k)) ≠ fletcher16 l := by
  intro heq
  have h1 := fletcher16_mod_256 (l.set j (flipBitInByte (l.getD j 0) k))
  have h2 := fletcher16_mod_256 l
  have hsum := sum_set_add l j (flipBitInByte (l.getD j 0) k) hj
  have hne := flipBitInByte_ne (l.getD j 0) k
  have hlt := flipBitInByte_lt (l.getD j 0) k hb hk
  omega

theorem toBytes_getD0 (p : Packet) : p.toBytes.getD 0 0 = 0x7E := by
  rw [Packet.toBytes, List.getD_append _ _ _ _ (by simp [headerBytes_length])]
  simp [Packet.headerBytes, List.getD]

theorem toBytes_getD3 (p : Packet) : p.toBytes.getD 3 0 = p.data.length + 1 := by
  rw [Packet.toBytes, List.getD_append _ _ _ _ (by simp [headerBytes_length]; omega)]
  simp [Packet.headerBytes, List.getD]

theorem toBytes_take_header (p : Packet) :
    p.toBytes.take (4 + (p.data.length + 1)) = p.headerBytes := by
  rw [Packet.toBytes, List.take_append_of_le_length (by simp [headerBytes_length]; omega)]
  exact List.take_of_length_le (by simp [headerBytes_length]; omega)

theorem toBytes_getD_hi (p : Packet) :
    p.toBytes.getD (4 + (p.data.length + 1)) 0 =
      (fletcher16 p.headerBytes >>> 8) &&& 0xFF := by
  rw [Packet.toBytes, getD_append_right_ _ _ _ (by simp [headerBytes_length]; omega),
    show 4 + (p.data.length + 1) - p.headerBytes.length = 0 by
      simp [headerBytes_length]; omega]
  rfl

theorem toBytes_getD_lo (p : Packet) :
    p.toBytes.getD (5 + (p.data.length + 1)) 0 = fletcher16 p.headerBytes &&& 0xFF := by
  rw [Packet.toBytes, getD_append_right_ _ _ _ (by simp [headerBytes_length]),
    show 5 + (p.data.length + 1) - p.headerBytes.length = 1 by
      simp [headerBytes_length]; omega]
  rfl

theorem toBytes_received (p : Packet) :
    receivedChecksum p.toBytes = fletcher16 p.headerBytes := by
  unfold receivedChecksum
  rw [toBytes_getD3, toBytes_getD_hi, toBytes_getD_lo]
  exact checksum_bytes_reassemble _ (fletcher16_lt _)

theorem toBytes_calculated (p : Packet) :
    calculatedChecksum p.toBytes = fletcher16 p.headerBytes := by
  unfold calculatedChecksum
  rw [toBytes_getD3, toBytes_take_header]

theorem toBytes_mem_lt (p : Packet) (hv : p.Valid) : ∀ b ∈ p.toBytes, b < 256 := by
  obtain ⟨v1, v2, v3, v4, v5⟩ := hv
  intro b hb
  rw [Packet.toBytes] at hb
  rcases List.mem_append.mp hb with h | h
  · rw [Packet.headerBytes] at h
    simp only [List.mem_cons] at h
    rcases h with h | h | h | h | h | h
    · omega
    · omega
    · omega
    · omega
    · omega
    · exact v5 b h
  · simp only [List.mem_cons, List.not_mem_nil, or_false] at h
    rcases h with h | h <;> rw [h, show (0xFF : Nat) = 255 from rfl, and_255_eq] <;>
      exact Nat.mod_lt _ (by omega)

/-- C6 amended: flipping any single bit of an encoded packet outside the
length byte (byte index 3) makes the decoder return `None` — the start
flag check catches byte 0, the Fletcher-16 comparison catches every
other header, payload and checksum byte.  (A length-byte flip can
reframe the buffer and decode successfully; see the counterexample.) -/
theorem bitflip_rejected (p : Packet) (hv : p.Valid) (i : Nat)
    (hi : i < 8 * p.toBytes.length) (hj3 : i / 8 ≠ 3) :
    Packet.fromBytes (flipBit p.toBytes i) = none := by
  have hlen : p.toBytes.length = 7 + p.data.length := toBytes_length p
  have hhblen : p.headerBytes.length = 5 + p.data.length := headerBytes_length p
  have hclt : fletcher16 p.headerBytes < 65536 := fletcher16_lt _
  unfold flipBit
  set e := p.toBytes with he
  set j := i / 8 with hjdef
  set k := i % 8 with hkdef
  have hj : j < e.length := by omega
  have hk : k < 8 := by omega
  have holdb : e.getD j 0 < 256 := by
    rw [List.getD_eq_getElem _ _ hj]
    exact toBytes_mem_lt p hv _ (List.getElem_mem hj)
  set newb := flipBitInByte (e.getD j 0) k with hnb
  have hne : newb ≠ e.getD j 0 := flipBitInByte_ne _ _
  have hnewlt : newb < 256 := flipBitInByte_lt _ _ holdb hk
  have he2 : e = p.headerBytes ++
      [(fletcher16 p.headerBytes >>> 8) &&& 0xFF, fletcher16 p.headerBytes &&& 0xFF] := rfl
  rw [packet_fromBytes_none_iff]
  by_cases hj0 : j = 0
  · -- start-flag byte corrupted
    refine Or.inr (Or.inl ?_)
    rw [hj0, getD_set_self_ _ _ _ (by omega)]
    have h0 : e.getD 0 0 = 0x7E := toBytes_getD0 p
    rw [hj0] at hne
    omega
  · have hD3 : (e.set j newb).getD 3 0 = p.data.length + 1 := by
      rw [getD_set_ne_ _ _ _ _ hj3, toBytes_getD3]
    refine Or.inr (Or.inr (Or.inr ?_))
    by_cases hjlt : j < 5 + p.data.length
    · -- a checksummed byte (header or payload) corrupted
      have hrecv : receivedChecksum (e.set j newb) = fletcher16 p.headerBytes := by
        unfold receivedChecksum
        rw [hD3, getD_set_ne_ _ _ _ _ (by omega), getD_set_ne_ _ _ _ _ (by omega),
          toBytes_getD_hi, toBytes_getD_lo]
        exact checksum_bytes_reassemble _ hclt
      have hcalc : calculatedChecksum (e.set j newb) =
          fletcher16 (p.headerBytes.set j (flipBitInByte (p.headerBytes.getD j 0) k)) := by
        unfold calculatedChecksum
        rw [hD3, List.set_take, toBytes_take_header]
        congr 2
        rw [hnb, he2, List.getD_append _ _ _ _ (by omega)]
      rw [hrecv, hcalc]
      intro heq
      exact fletcher16_set_flip_ne p.headerBytes j k (by omega)
        (by rw [← List.getD_append p.headerBytes _ 0 j (by omega), ← he2]; exact holdb)
        hk heq.symm
    · -- a checksum byte corrupted
      have hcalc : calculatedChecksum (e.set j newb) = fletcher16 p.headerBytes := by
        unfold calculatedChecksum
        rw [hD3, take_set_of_le _ _ _ _ (by omega), toBytes_take_header]
      rw [hcalc]
      have hdiv : e.getD (5 + p.data.length) 0 = fletcher16 p.headerBytes / 256 := by
        rw [show 5 + p.data.length = 4 + (p.data.length + 1) by omega, toBytes_getD_hi,
          show (0xFF : Nat) = 255 from rfl, and_255_eq, shiftRight_8_eq]
        omega
      have hmod : e.getD (6 + p.data.length) 0 = fletcher16 p.headerBytes % 256 := by
        rw [show 6 + p.data.length = 5 + (p.data.length + 1) by omega, toBytes_getD_lo,
          show (0xFF : Nat) = 255 from rfl, and_255_eq]
      by_cases hjhi : j = 5 + p.data.length
      · -- high checksum byte
        have hrecv : receivedChecksum (e.set j newb) =
            newb <<< 8 ||| fletcher16 p.headerBytes % 256 := by
          unfold receivedChecksum
          rw [hD3, show 4 + (p.data.length + 1) = 5 + p.data.length by omega,
            show 5 + (p.data.length + 1) = 6 + p.data.length by omega,
            ← hjhi, getD_set_self_ _ _ _ hj, getD_set_ne_ _ _ _ _ (by omega),
            hmod]
        rw [hrecv, shiftLeft_or_eq _ _ (by omega)]
        rw [hjhi, hdiv] at hne
        omega
      · -- low checksum byte
        have hjlo : j = 6 + p.data.length := by omega
        have hrecv : receivedChecksum (e.set j newb) =
            (fletcher16 p.headerBytes / 256) <<< 8 ||| newb := by
          unfold receivedChecksum
          rw [hD3, show 4 + (p.data.length + 1) = 5 + p.data.length by omega,
            show 5 + (p.data.length + 1) = 6 + p.data.length by omega,
            ← hjlo, getD_set_self_ _ _ _ hj, getD_set_ne_ _ _ _ _ (by omega),
            hdiv]
        rw [hrecv, shiftLeft_or_eq _ _ (by omega)]
        rw [hjlo, hmod] at hne
        omega

/-- C6 counterexample: for the valid packet
`7E 01 10 03 01 AD 91 <chk>` flipping bit 25 (bit 1 of the length byte,
turning `03` into `01`) still decodes successfully — the shortened frame
`7E 01 10 01 01` has checksum `AD 91`, which are exactly the next two
payload bytes — so "flipping any single bit causes decode to return
None" is false. -/
theorem bitflip_counterexample :
    (Packet.mk 1 0x10 0x01 [0xAD, 0x91] none).Valid ∧
    25 < 8 * (Packet.mk 1 0x10 0x01 [0xAD, 0x91] none).toBytes.length ∧
    Packet.fromBytes (flipBit (Packet.mk 1 0x10 0x01 [0xAD, 0x91] none).toBytes 25) ≠
      none := by
  refine ⟨by decide, by decide, by decide⟩

/-- C6 witness: flipping bit 8 (bit 0 of the address byte) of the
scenario-1 packet is rejected. -/
theorem bitflip_rejected_witness :
    (Packet.mk 1 0x10 0x01 [0x12, 0x34] none).Valid ∧
    8 < 8 * (Packet.mk 1 0x10 0x01 [0x12, 0x34] none).toBytes.length ∧
    (8 : Nat) / 8 ≠ 3 ∧
    Packet.fromBytes (flipBit (Packet.mk 1 0x10 0x01 [0x12, 0x34] none).toBytes 8) = none :=
  ⟨by decide, by decide, by decide,
    bitflip_rejected (Packet.mk 1 0x10 0x01 [0x12, 0x34] none) (by decide) 8
      (by decide) (by decide)⟩

/-! ## C7 — reassembly under arbitrary chunking -/

theorem find7E_lt (b : List Nat) : ∀ i, find7E b = some i → i < b.length := by
  induction b with
  | nil => intro i h; simp [find7E] at h
  | cons x rest ih =>
    intro i h
    rw [find7E] at h
    split_ifs at h with hx
    · cases h; simp
    · cases hfr : find7E rest with
      | none => rw [hfr] at h; simp at h
      | some i' =>
        rw [hfr] at h
        simp at h
        have := ih i' hfr
        simp
        omega

theorem find7E_drop (b : List Nat) : ∀ i, find7E b = some i →
    b.drop i = 0x7E :: b.drop (i + 1) := by
  induction b with
  | nil => intro i h; simp [find7E] at h
  | cons x rest ih =>
    intro i h
    rw [find7E] at h
    split_ifs at h with hx
    · cases h; simp [hx]
    · cases hfr : find7E rest with
      | none => rw [hfr] at h; simp at h
      | some i' =>
        rw [hfr] at h
        simp at h
        subst h
        simpa using ih i' hfr

theorem find7E_append_some (b1 b2 : List Nat) : ∀ i, find7E b1 = some i →
    find7E (b1 ++ b2) = some i := by
  induction b1 with
  | nil => intro i h; simp [find7E] at h
  | cons x rest ih =>
    intro i h
    rw [find7E] at h
    rw [List.cons_append, find7E]
    split_ifs at h ⊢ with hx
    · exact h
    · cases hfr : find7E rest with
      | none => rw [hfr] at h; simp at h
      | some i' =>
        rw [hfr] at h
        rw [ih i' hfr]
        exact h

theorem find7E_append_none (b1 b2 : List Nat) (h : find7E b1 = none) :
    find7E (b1 ++ b2) = (find7E b2).map (b1.length + ·) := by
  induction b1 with
  | nil =>
    simp
  | cons x rest ih =>
    rw [find7E] at h
    split_ifs at h with hx
    · cases hfr : find7E rest with
      | none =>
        rw [List.cons_append, find7E, if_neg hx, ih hfr]
        cases find7E b2 with
        | none => simp
        | some m => simp; omega
      | some i' => rw [hfr] at h; simp at h

theorem find7E_cons_start (t : List Nat) : find7E (0x7E :: t) = some 0 := by
  simp [find7E]

/-- The `processBuffer` on a buffer with no start flag clears it. -/
theorem processBuffer_no_start (buf : List Nat) (h : find7E buf = none) :
    processBuffer buf = ([], []) := by
  unfold processBuffer
  rw [h]

/-- The `processBuffer` aligns on the first start flag and runs the
per-frame body. -/
theorem processBuffer_start (buf : List Nat) (i : Nat) (h : find7E buf = some i) :
    processBuffer buf = afterStart (buf.drop i) := by
  unfold processBuffer afterStart
  rw [h]
  simp only [dite_eq_ite]

theorem processBuffer_cons_start (t : List Nat) :
    processBuffer (0x7E :: t) = afterStart (0x7E :: t) := by
  rw [processBuffer_start _ 0 (find7E_cons_start t)]
  rfl

/-- The wait states of the loop body: fewer than 6 buffered bytes, or
fewer than the full `6 + buffer[3]` frame bytes — keep the buffer. -/
theorem afterStart_wait (b : List Nat) (h : b.length < 6 ∨ b.length < 6 + b.getD 3 0) :
    afterStart b = (b, []) := by
  unfold afterStart
  by_cases h6 : b.length < 6
  · rw [if_pos h6]
  · rw [if_neg h6]
    simp only []
    rw [if_pos (by omega)]

/-- The extract state of the loop body: slice one frame, decode it, and
recurse on the remainder. -/
theorem afterStart_go (b : List Nat) (h6 : ¬b.length < 6)
    (hT : ¬b.length < 6 + b.getD 3 0) :
    afterStart b =
      match Packet.fromBytes (b.take (6 + b.getD 3 0)) with
      | some p => ((processBuffer (b.drop (6 + b.getD 3 0))).1,
          p :: (processBuffer (b.drop (6 + b.getD 3 0))).2)
      | none => processBuffer (b.drop (6 + b.getD 3 0)) := by
  unfold afterStart
  rw [if_neg h6]
  simp only []
  rw [if_neg hT]

/-- The buffer left behind by `process_buffer` is quiescent: running the
loop on it again consumes nothing and decodes nothing. -/
theorem processBuffer_quiescent_aux :
    ∀ (n : Nat) (buf : List Nat), buf.length ≤ n →
      processBuffer (processBuffer buf).1 = ((processBuffer buf).1, []) := by
  intro n
  induction n with
  | zero =>
    intro buf hlen
    have hb : buf = [] := List.eq_nil_of_length_eq_zero (by omega)
    subst hb
    rw [processBuffer_no_start [] rfl]
    exact processBuffer_no_start [] rfl
  | succ n ih =>
    intro buf hlen
    cases hfind : find7E buf with
    | none =>
      rw [processBuffer_no_start buf hfind]
      exact processBuffer_no_start [] rfl
    | some i =>
      have hilt : i < buf.length := find7E_lt buf i hfind
      have hdrop : buf.drop i = 0x7E :: buf.drop (i + 1) := find7E_drop buf i hfind
      have hdlen : (buf.drop i).length = buf.length - i := by simp
      rw [processBuffer_start buf i hfind]
      by_cases hwait : (buf.drop i).length < 6 ∨ (buf.drop i).length < 6 + (buf.drop i).getD 3 0
      · rw [afterStart_wait _ hwait, hdrop, processBuffer_cons_start,
          afterStart_wait _ (by rw [← hdrop]; exact hwait)]
      · push_neg at hwait
        rw [afterStart_go _ (by omega) (by omega)]
        cases hfb : Packet.fromBytes ((buf.drop i).take (6 + (buf.drop i).getD 3 0)) with
        | none =>
          simp only
          exact ih _ (by simp; omega)
        | some p =>
          simp only
          exact ih _ (by simp; omega)

/-- Feeding more bytes after a `process_buffer` run continues exactly
where the loop stopped: the packets of `process_buffer (buf ++ d)` are
the packets of `buf` followed by the packets of the leftover-plus-`d`
run, and the final buffers agree. -/
theorem processBuffer_append_aux :
    ∀ (n : Nat) (buf d : List Nat), buf.length ≤ n →
      processBuffer (buf ++ d) =
        ((processBuffer ((processBuffer buf).1 ++ d)).1,
         (processBuffer buf).2 ++ (processBuffer ((processBuffer buf).1 ++ d)).2) := by
  intro n
  induction n with
  | zero =>
    intro buf d hlen
    have hb : buf = [] := List.eq_nil_of_length_eq_zero (by omega)
    subst hb
    rw [processBuffer_no_start [] rfl]
    simp
  | succ n ih =>
    intro buf d hlen
    cases hfind : find7E buf with
    | none =>
      rw [processBuffer_no_start buf hfind]
      simp only [List.nil_append]
      cases hfd : find7E d with
      | none =>
        rw [processBuffer_no_start d hfd,
          processBuffer_no_start _ (by rw [find7E_append_none buf d hfind, hfd]; rfl)]
      | some m =>
        have hfbd : find7E (buf ++ d) = some (buf.length + m) := by
          rw [find7E_append_none buf d hfind, hfd]
          rfl
        rw [processBuffer_start _ _ hfbd, processBuffer_start d m hfd,
          drop_append_of_length_le buf d _ (by omega),
          show buf.length + m - buf.length = m by omega]
    | some i =>
      have hilt : i < buf.length := find7E_lt buf i hfind
      have hdrop : buf.drop i = 0x7E :: buf.drop (i + 1) := find7E_drop buf i hfind
      have hfbd : find7E (buf ++ d) = some i := find7E_append_some buf d i hfind
      have hdropapp : (buf ++ d).drop i = buf.drop i ++ d :=
        List.drop_append_of_le_length (by omega)
      rw [processBuffer_start _ _ hfbd, hdropapp, processBuffer_start buf i hfind]
      by_cases hwait : (buf.drop i).length < 6 ∨
          (buf.drop i).length < 6 + (buf.drop i).getD 3 0
      · rw [afterStart_wait _ hwait, hdrop, List.cons_append, processBuffer_cons_start]
        simp
      · push_neg at hwait
        obtain ⟨hw6, hwT⟩ := hwait
        have hdlen : (buf.drop i).length = buf.length - i := by simp
        have hg3 : (buf.drop i ++ d).getD 3 0 = (buf.drop i).getD 3 0 :=
          List.getD_append _ _ _ _ (by omega)
        rw [afterStart_go (buf.drop i) (by omega) (by omega),
          afterStart_go (buf.drop i ++ d) (by simp; omega)
            (by rw [hg3, List.length_append]; omega),
          hg3, List.take_append_of_le_length (by omega),
          List.drop_append_of_le_length (by omega)]
        have ihr := ih ((buf.drop i).drop (6 + (buf.drop i).getD 3 0)) d (by simp; omega)
        cases hfb : Packet.fromBytes ((buf.drop i).take (6 + (buf.drop i).getD 3 0)) with
        | none =>
          simp only
          exact ihr
        | some p =>
          simp only
          rw [ihr]
          simp

theorem processBuffer_append (buf d : List Nat) :
    processBuffer (buf ++ d) =
      ((processBuffer ((processBuffer buf).1 ++ d)).1,
       (processBuffer buf).2 ++ (processBuffer ((processBuffer buf).1 ++ d)).2) :=
  processBuffer_append_aux buf.length buf d le_rfl

/-- The generalized chunk fold: starting from a quiescent buffer `b` and
already-emitted packets `acc`, feeding the chunks one at a time equals
one `process_buffer` run over `b` plus all the bytes. -/
theorem feedChunks_go (chunks : List (List Nat)) :
    ∀ (b : List Nat) (acc : List Packet), processBuffer b = (b, []) →
      chunks.foldl feedStep (b, acc) =
      ((processBuffer (b ++ chunks.flatten)).1,
       acc ++ (processBuffer (b ++ chunks.flatten)).2) := by
  induction chunks with
  | nil =>
    intro b acc hq
    simp [hq]
  | cons c rest ih =>
    intro b acc hq
    rw [List.foldl_cons,
      show feedStep (b, acc) c =
        ((processBuffer (b ++ c)).1, acc ++ (processBuffer (b ++ c)).2) from rfl,
      ih _ _ (processBuffer_quiescent_aux (b ++ c).length (b ++ c) le_rfl),
      List.flatten_cons, ← List.append_assoc, processBuffer_append (b ++ c) rest.flatten]
    simp

/-- C7: (a) the custom-protocol reassembler is chunking-invariant —
feeding a byte stream split at arbitrary boundaries through
`handle_raw_data`/`process_buffer` yields exactly the frames of feeding
it whole; (b) the Modbus master's `receive_worker` parses each `recv`
chunk on its own, so a frame split across two `recv` calls decodes when
the stream arrives whole but is lost when it arrives split — the
buffering the spec mandates is absent. -/
theorem reassembly_invariance_and_modbus_recv_gap :
    (∀ chunks : List (List Nat), feedChunks chunks = processBuffer chunks.flatten) ∧
    (modbusPerRecvFrames
        [[0x00, 0x01, 0x00, 0x00, 0x00], [0x05, 0x01, 0x03, 0x02, 0x12, 0x34]] = [] ∧
      modbusPerRecvFrames
        [[0x00, 0x01, 0x00, 0x00, 0x00] ++ [0x05, 0x01, 0x03, 0x02, 0x12, 0x34]] =
        [ModbusTCPFrame.mk 1 0 5 1 0x03 [0x02, 0x12, 0x34]]) := by
  refine ⟨?_, by decide, by decide⟩
  intro chunks
  unfold feedChunks
  rw [feedChunks_go chunks [] [] (processBuffer_no_start [] rfl)]
  simp
